import Mathlib

set_option maxRecDepth 8000

namespace Sequelify

/-!
Shallow embedding of `src/index.js` (the `Manager` / `SQLS` / `DBS` layer of the
sequelify repository).  Strings are modelled as `List Char`; JavaScript runtime
values appearing as SQL bind parameters, options, and driver results are
modelled by `JVal`; JavaScript exceptions by `JsErr`.  The pluggable dialect
driver and the cache are external collaborators and are modelled as function
records (`Dbx`); the statement cache is modelled as absent (static statements),
and the global `substitutes` regexp rewriting as well as subdirectory recursion
of the SQL folder walk are elided because no verified claim touches them.
-/

/-- A JavaScript number, modelled as an exact rational `n / d` with a
positive denominator (the claims only exercise values where IEEE-754 and
exact rational comparison agree).  The representation is not normalised;
all comparisons go through cross-multiplication. -/
structure JNum where
  n : Int
  d : Nat := 1
deriving DecidableEq

/-- The integer `n` as a JS number. -/
def JNum.int (n : Int) : JNum := { n := n }

instance (n : Nat) : OfNat JNum n := ⟨JNum.int n⟩

/-- JavaScript values: numbers, strings, `Date` objects (identified by their
ISO string), booleans, arrays, plain objects, error objects and `undefined`. -/
inductive JVal where
  | num (n : JNum)
  | str (s : String)
  | date (iso : String)
  | bool (b : Bool)
  | arr (elems : List JVal)
  | obj (fields : List (String × JVal))
  | exn (msg : String)
  | undef

/-- JavaScript exceptions raised by the embedded code: plain `Error`,
`TypeError` (property access on `undefined`) and `ReferenceError`
(use of an undeclared identifier). -/
inductive JsErr where
  | err (msg : String)
  | typeError (msg : String)
  | referenceError (msg : String)
deriving DecidableEq

/-- The message carried by a JavaScript exception. -/
def JsErr.msg : JsErr → String
  | .err m => m
  | .typeError m => m
  | .referenceError m => m

/-- A JS object holding bind parameters: ordered key/value fields. -/
abbrev Binds := List (String × JVal)

/-- JavaScript truthiness of a `JVal`. -/
def truthy : JVal → Bool
  | .num x => decide (x.n ≠ 0)
  | .str s => !s.isEmpty
  | .date _ => true
  | .bool b => b
  | .arr _ => true
  | .obj _ => true
  | .exn _ => true
  | .undef => false

/-- Truthiness of a possibly-absent (`undefined`) value. -/
def truthyOpt : Option JVal → Bool
  | none => false
  | some v => truthy v

/-- Truthiness of a possibly-absent string option field. -/
def truthyStr : Option String → Bool
  | none => false
  | some s => !s.isEmpty

/-- Property read on a JS object (assoc list): first binding wins. -/
def objGet : Binds → String → Option JVal
  | [], _ => none
  | (k0, v0) :: rest, k => if k0 = k then some v0 else objGet rest k

/-- Property write on a JS object: existing key is updated in place
(insertion order preserved), otherwise the field is appended. -/
def objSet : Binds → String → JVal → Binds
  | [], k, v => [(k, v)]
  | (k0, v0) :: rest, k, v =>
      if k0 = k then (k, v) :: rest else (k0, v0) :: objSet rest k v

/-- Model of `Object.prototype.hasOwnProperty`. -/
def objHas (o : Binds) (k : String) : Bool :=
  (objGet o k).isSome

/- ### Character classes of the regular expressions in `DBS.frag` -/

/-- Model of `[a-z]` with the `i` flag: an ASCII letter. -/
def isAsciiLetter (c : Char) : Bool :=
  (97 ≤ c.toNat && c.toNat ≤ 122) || (65 ≤ c.toNat && c.toNat ≤ 90)

/-- Model of `\d`. -/
def isDigitCh (c : Char) : Bool :=
  48 ≤ c.toNat && c.toNat ≤ 57

/-- Model of `\w`. -/
def isWordCh (c : Char) : Bool :=
  isAsciiLetter c || isDigitCh c || c == '_'

/-- Model of `\s` (restricted to the ASCII whitespace characters that can occur in the
claims; the Unicode space classes never appear in any verified statement). -/
def isSpaceCh (c : Char) : Bool :=
  c == ' ' || c == '\t' || c == '\n' || c == '\r' || c.toNat == 11 || c.toNat == 12

/-- Model of `(?:\r?\n|\n)*`: split a maximal run of line breaks (each `\r\n` or `\n`)
off the front of the text. -/
def takeLbs : List Char → List Char × List Char
  | [] => ([], [])
  | [c] => if c = '\n' then (['\n'], []) else ([], [c])
  | c :: c2 :: rest =>
      if c = '\n' then
        let p := takeLbs (c2 :: rest); ('\n' :: p.1, p.2)
      else if c = '\r' ∧ c2 = '\n' then
        let p := takeLbs rest; ('\r' :: '\n' :: p.1, p.2)
      else ([], c :: c2 :: rest)

/-- ASCII lower-casing on code points (`A`-`Z` move to `a`-`z`). -/
def lowerNat (n : Nat) : Nat :=
  if 65 ≤ n ∧ n ≤ 90 then n + 32 else n

/-- Model of `String.prototype.toLowerCase` on the ASCII strings the claims use. -/
def lowerStr (s : String) : String :=
  String.mk (s.toList.map Char.toLower)

/-- Character comparison of a pattern character `l` against a text character
`c`; with `ci` (the `/i` flag) ASCII letters compare case-insensitively,
everything else exactly. -/
def chEqCI (ci : Bool) (l c : Char) : Bool :=
  l == c || (ci && isAsciiLetter l && isAsciiLetter c && lowerNat l.toNat == lowerNat c.toNat)

/-- Strip a literal off the front of the text (`ci` = case-insensitive,
for the `/i` flag of the version regexp). -/
def stripLit (ci : Bool) : List Char → List Char → Option (List Char)
  | [], s => some s
  | _, [] => none
  | l :: ls, c :: cs => if chEqCI ci l c then stripLit ci ls cs else none

/-- Does the text start with the given literal? (used for the negative
lookahead `(?!marker)` in the guard regexps). -/
def startsWithLit (ci : Bool) (lit s : List Char) : Bool :=
  (stripLit ci lit s).isSome

/- ### Pass 1 of `DBS.frag`: `sqlArrayRpl`, regexp `/(:)([a-z]+[0-9]*?)/gi`

The lazy `[0-9]*?` at the end of the pattern always matches the empty string,
so a match is a colon followed by a maximal run of ASCII letters. -/

/-- Try to match the bind-token pattern at the head of the text; on success
return the letter run (the captured `key`) and the rest of the text. -/
def tryToken : List Char → Option (List Char × List Char)
  | [] => none
  | c :: rest =>
      if c = ':' then
        let ls := rest.takeWhile isAsciiLetter
        if ls.isEmpty then none else some (ls, rest.dropWhile isAsciiLetter)
      else none

/-- Model of `(i || '')`: the index suffix of the i-th expanded sibling token
(the first sibling reuses the base name). -/
def numSuffix (i : Nat) : List Char :=
  if i = 0 then [] else (toString i).toList

/-- The loop body of `sqlArrayRpl`: build the comma-separated replacement
`:key, :key1, :key2, ...` and set each sibling's value in the bind object. -/
def expandGo (key : List Char) : Nat → List JVal → List Char → Binds → List Char × Binds
  | _, [], acc, b => (acc, b)
  | i, v :: rest, acc, b =>
      let tok := ':' :: (key ++ numSuffix i)
      let acc2 := acc ++ (if acc.isEmpty then [] else [',', ' ']) ++ tok
      let b2 := objSet b (String.mk (key ++ numSuffix i)) v
      expandGo key (i + 1) rest acc2 b2

/-- Model of `Array.isArray(rplmts[key]) && rplmts[key]`: the bind value of `key` when
it is an array. -/
def arrVals (b : Binds) (key : String) : Option (List JVal) :=
  match objGet b key with
  | some (.arr vals) => some vals
  | _ => none

/-- The global replace of pass 1: scan left to right; at each bind token whose
value in `rplmts` is a (non-empty) array, splice in the expanded sibling list
and update the binds; every other token is left unchanged.  Scanning resumes
after the original match (replacements are not rescanned), exactly as
`String.prototype.replace` does. -/
def sqlArrayGo : Nat → Option Binds → List Char → List Char × Option Binds
  | 0, rpl, s => (s, rpl)
  | _ + 1, rpl, [] => ([], rpl)
  | fuel + 1, rpl, c :: rest0 =>
      match tryToken (c :: rest0) with
      | some (ls, rest) =>
          let key := String.mk ls
          match rpl with
          | some b =>
              match arrVals b key with
              | some vals =>
                  if vals.isEmpty then
                    let p := sqlArrayGo fuel rpl rest
                    (':' :: ls ++ p.1, p.2)
                  else
                    let e := expandGo ls 0 vals [] b
                    let p := sqlArrayGo fuel (some e.2) rest
                    (e.1 ++ p.1, p.2)
              | none =>
                  let p := sqlArrayGo fuel rpl rest
                  (':' :: ls ++ p.1, p.2)
          | none =>
              let p := sqlArrayGo fuel rpl rest
              (':' :: ls ++ p.1, p.2)
      | none =>
          let p := sqlArrayGo fuel rpl rest0
          (c :: p.1, p.2)

/- ### Passes 2-4 of `DBS.frag`: the three guard-span replaces -/

/-- Model of `-{0,2}marker`: up to two `-` characters directly before a marker literal
(greedy: two dashes are tried first, then one, then none). -/
def dashLit (ci : Bool) (lit s : List Char) : Option (List Char) :=
  (match s with
   | c1 :: c2 :: t => if c1 = '-' ∧ c2 = '-' then stripLit ci lit t else none
   | _ => none).orElse fun _ =>
  (match s with
   | c1 :: t => if c1 = '-' then stripLit ci lit t else none
   | _ => none).orElse fun _ =>
  stripLit ci lit s

/-- Model of `\s*(\w+)\s*\]\]` after a dialect/fragment open marker: parse the guard
key and apply the keep-condition `keep`. -/
def parseWordCond (keep : String → Bool) (s : List Char) : Option (Bool × List Char) :=
  let s1 := s.dropWhile isSpaceCh
  let w := s1.takeWhile isWordCh
  if w.isEmpty then none
  else
    let s2 := (s1.dropWhile isWordCh).dropWhile isSpaceCh
    match stripLit false [']', ']'] s2 with
    | some rest => some (keep (String.mk w), rest)
    | none => none

/-- The six comparators of the `COMPARE` table, applied to
(connection version, guard literal). -/
inductive CmpOp where
  | ceq | clt | cgt | cle | cge | cne
deriving DecidableEq

/-- Model of `COMPARE[key](x, y)` on JS numbers: value comparison of the rationals
`x.n / x.d` and `y.n / y.d` by cross-multiplication (denominators are
positive). -/
def cmpApply : CmpOp → JNum → JNum → Bool
  | .ceq, x, y => decide (x.n * y.d = y.n * x.d)
  | .clt, x, y => decide (x.n * y.d < y.n * x.d)
  | .cgt, x, y => decide (y.n * x.d < x.n * y.d)
  | .cle, x, y => decide (x.n * y.d ≤ y.n * x.d)
  | .cge, x, y => decide (y.n * x.d ≤ x.n * y.d)
  | .cne, x, y => decide (x.n * y.d ≠ y.n * x.d)

/-- The alternation `(=|<=?|>=?|<>)` with JS backtracking order: each entry is
a comparator candidate together with the remaining text; candidates are tried
in order until the rest of the pattern also matches. -/
def cmpCandidates : List Char → List (CmpOp × List Char)
  | '=' :: r => [(.ceq, r)]
  | '<' :: r =>
      (match r with
       | '=' :: r2 => [(.cle, r2), (.clt, r)]
       | '>' :: r2 => [(.clt, r), (.cne, r2)]
       | _ => [(.clt, r)])
  | '>' :: r =>
      (match r with
       | '=' :: r2 => [(.cge, r2), (.cgt, r)]
       | _ => [(.cgt, r)])
  | _ => []

/-- Numeric value of a digit run. -/
def digitsVal (l : List Char) : Nat :=
  l.foldl (fun a c => a * 10 + (c.toNat - 48)) 0

/-- Model of `\s*[+-]?(\d+\.?\d*)\s*\]\]` after a version comparator.  The sign is
outside the capture group, so `parseFloat` only ever sees the unsigned digit
string (a sign in the source is silently dropped); a digit string of this
shape is never `NaN`.  The parsed value `int.frac` is the rational
`(int * 10^k + frac) / 10^k`. -/
def parseNumTail (s : List Char) : Option (JNum × List Char) :=
  let s1 := s.dropWhile isSpaceCh
  let s2 := match s1 with
    | '+' :: r => r
    | '-' :: r => r
    | _ => s1
  let ip := s2.takeWhile isDigitCh
  if ip.isEmpty then none
  else
    let s3 := s2.dropWhile isDigitCh
    let fpp : List Char × List Char := match s3 with
      | '.' :: r => (r.takeWhile isDigitCh, r.dropWhile isDigitCh)
      | _ => ([], s3)
    let s5 := fpp.2.dropWhile isSpaceCh
    match stripLit false [']', ']'] s5 with
    | some rest =>
        some ({ n := (digitsVal ip * 10 ^ fpp.1.length + digitsVal fpp.1 : Nat),
                d := 10 ^ fpp.1.length }, rest)
    | none => none

/-- Comparator-and-literal parse for a version guard, yielding the
keep-condition `COMPARE[key](version, literal)`. -/
def pickCmp (version : JNum) : List (CmpOp × List Char) → Option (Bool × List Char)
  | [] => none
  | (op, r) :: rest =>
      match parseNumTail r with
      | some p => some (cmpApply op version p.1, p.2)
      | none => pickCmp version rest

/-- Model of `\s*(=|<=?|>=?|<>)\s*[+-]?(\d+\.?\d*)\s*\]\]` after `[[version`. -/
def parseVerCond (version : JNum) (s : List Char) : Option (Bool × List Char) :=
  pickCmp version (cmpCandidates (s.dropWhile isSpaceCh))

/-- Model of `([\S\s]*?)-{0,2}closeMarker`: lazy content scan — the earliest position
where (up to two dashes and) the close marker occurs ends the span; returns
the inner content and the text after the close marker. -/
def findCloseGo (ci : Bool) (closeLit : List Char) : Nat → List Char → Option (List Char × List Char)
  | 0, _ => none
  | fuel + 1, s =>
      match dashLit ci closeLit s with
      | some rest => some ([], rest)
      | none =>
          match s with
          | [] => none
          | c :: t =>
              match findCloseGo ci closeLit fuel t with
              | some p => some (c :: p.1, p.2)
              | none => none

/-- Try to match one whole guard span starting at the current position:
`((?:\r?\n|\n)*)-{0,2}OPEN(?!OPEN)COND\]\](?:\r?\n|\n)*([\S\s]*?)-{0,2}CLOSE((?:\r?\n|\n)*)`
(`COND` consumes through the `]]` of the open marker and returns the
keep-condition).  On success, return the replacement text produced by the JS
replacement callback (`(cond && fsql && (lb1 + fsql)) || ((lb1 || lb2) && ' ') || ''`)
and the rest of the input after the match. -/
def tryGuardAt (ci : Bool) (openLit closeLit : List Char)
    (parseCond : List Char → Option (Bool × List Char)) (s : List Char) :
    Option (List Char × List Char) :=
  let lb1p := takeLbs s
  match dashLit ci openLit lb1p.2 with
  | none => none
  | some s2 =>
      if startsWithLit ci openLit s2 then none
      else
        match parseCond s2 with
        | none => none
        | some (cond, s3) =>
            let s4 := (takeLbs s3).2
            match findCloseGo ci closeLit (s4.length + 1) s4 with
            | none => none
            | some (fsql, s5) =>
                let lb2p := takeLbs s5
                let rep :=
                  if cond && !fsql.isEmpty then lb1p.1 ++ fsql
                  else if !lb1p.1.isEmpty || !lb2p.1.isEmpty then [' ']
                  else []
                some (rep, lb2p.2)

/-- One global guard replace (`String.prototype.replace` with the `g` flag):
leftmost match wins; scanning resumes after the match, so replacement text is
never rescanned within the same pass. -/
def guardGo (ci : Bool) (openLit closeLit : List Char)
    (parseCond : List Char → Option (Bool × List Char)) : Nat → List Char → List Char
  | 0, s => s
  | fuel + 1, s =>
      match tryGuardAt ci openLit closeLit parseCond s with
      | some (rep, rest) => rep ++ guardGo ci openLit closeLit parseCond fuel rest
      | none =>
          match s with
          | [] => []
          | c :: t => c :: guardGo ci openLit closeLit parseCond fuel t

/-- Pass 2, `sqlDiaRpl`: dialect guards `[[! name ]] ... [[!]]` (case-sensitive
markers, `g` flag only); content is kept iff `name.toLowerCase()` equals the
connection's (lowercased) dialect. -/
def sqlDiaPass (dialect : String) (s : List Char) : List Char :=
  guardGo false ['[', '[', '!'] ['[', '[', '!', ']', ']']
    (parseWordCond (fun k => lowerStr k == dialect)) s.length s

/-- Pass 3, `sqlVerRpl`: version guards `[[version OP N]] ... [[version]]`
(`gi` flags); content is kept iff `COMPARE[OP](version, N)`. -/
def sqlVerPass (version : JNum) (s : List Char) : List Char :=
  guardGo true ['[', '[', 'v', 'e', 'r', 's', 'i', 'o', 'n']
    ['[', '[', 'v', 'e', 'r', 's', 'i', 'o', 'n', ']', ']']
    (parseVerCond version) s.length s

/-- Pass 4, `sqlFragRpl`: selection guards `[[? key ]] ... [[?]]` (`g` flag);
content is kept iff `key` is in the caller's retain list (`keys.indexOf(key) >= 0`,
with an absent list keeping nothing). -/
def sqlFragPass (keys : Option (List String)) (s : List Char) : List Char :=
  guardGo false ['[', '[', '?'] ['[', '[', '?', ']', ']']
    (parseWordCond (fun k =>
      match keys with
      | some ks => ks.contains k
      | none => false)) s.length s

/-- Model of `DBS.frag` on `List Char`: `if (!sql) return sql;` then the four passes in
source order — array-bind expansion (which mutates the bind object), dialect
guards, version guards, selection guards.  `dialect` is the connection's
lowercased dialect, `version` is `conn.version || 0`. -/
def fragL (dialect : String) (version : JNum) (sql : List Char)
    (keys : Option (List String)) (rplmts : Option Binds) : List Char × Option Binds :=
  if sql.isEmpty then (sql, rplmts)
  else
    let p1 := sqlArrayGo sql.length rplmts sql
    let s2 := sqlDiaPass dialect p1.1
    let s3 := sqlVerPass version s2
    let s4 := sqlFragPass keys s3
    (s4, p1.2)

/-- Model of `DBS.frag` on `String`. -/
def frag (dialect : String) (version : JNum) (sql : String)
    (keys : Option (List String)) (rplmts : Option Binds) : String × Option Binds :=
  let p := fragL dialect version sql.toList keys rplmts
  (String.mk p.1, p.2)

/- ### Execution options and the dialect driver collaborator -/

/-- Model of `Manager~ExecOptions`, the options object passed to a prepared SQL
function; absent fields are `undefined`.  The same shape models the
`{ type, binds }` object built by `genExecSqlFromFileFunction` (whose
`returnErrors` and `numOfIterations` fields are absent). -/
structure ExecOpts where
  type : Option String := none
  binds : Option Binds := none
  numOfIterations : Option JNum := none
  returnErrors : Option JVal := none

/-- The argument package of one `dbx.exec(sqlf, generateDbsOpts(dbs, opts), frags)`
driver call: the resolved SQL, the fields of the options object (after `frag`
mutated its binds and `generateDbsOpts` attached the transaction context) and
the fragment keys. -/
structure DbxCall where
  sqlf : List Char
  type : Option String
  binds : Option Binds
  returnErrors : Option JVal
  txPending : Int
  frags : Option (List String)

/-- The external `Dialect` driver implementation: `init`, `exec`, `commit`,
`rollback`, `close`.  Each operation can throw (`Except.error`). -/
structure Dbx where
  init : JVal → Except JsErr JVal
  exec : DbxCall → Except JsErr JVal
  commit : JVal → Except JsErr JVal
  rollback : JVal → Except JsErr JVal
  close : JVal → Except JsErr JVal

/-- Model of `generateDbsOpts` for the no-argument lifecycle calls: a fresh options
object carrying `tx.pending`. -/
def generateDbsOpts (pending : Int) : JVal :=
  .obj [("tx", .obj [("pending", .num (.int pending))])]

/-- Model of `DBS.exec`: resolve the SQL through `frag` (mutating the bind object),
bump the pending counter for non-`READ` statements, call the driver, and on a
driver failure either return the error as a value (`opts.returnErrors` truthy)
or re-raise it.  Returns the outcome together with the updated pending
counter. -/
def dbsExec (dbx : Dbx) (dialect : String) (version : JNum) (pending : Int)
    (sql : List Char) (opts : ExecOpts) (frags : Option (List String)) :
    Except JsErr JVal × Int :=
  let p := fragL dialect version sql frags opts.binds
  let pending2 := pending + (if opts.type = some "READ" then 0 else 1)
  match dbx.exec { sqlf := p.1, type := opts.type, binds := p.2,
                   returnErrors := opts.returnErrors, txPending := pending2,
                   frags := frags } with
  | .ok r => (.ok r, pending2)
  | .error e =>
      if truthyOpt opts.returnErrors then (.ok (.exn e.msg), pending2)
      else (.error e, pending2)

/- ### `SQLS.prepared` and the public statement function `execSqlPublic` -/

/-- Model of `CRUD_TYPES`. -/
def CRUD_TYPES : List String := ["CREATE", "READ", "UPDATE", "DELETE"]

/-- The CRUD category inferred from a SQL file name:
`Path.parse(fpth).name.match(/[^\.]*/)[0].toUpperCase()`, kept only when it is
one of `CRUD_TYPES`. -/
def crudOf (fname : String) : Option String :=
  let pre := String.mk ((fname.toList.takeWhile (fun c => c != '.')).map Char.toUpper)
  if CRUD_TYPES.contains pre then some pre else none

/-- Date normalisation of one call-supplied bind value:
`(v instanceof Date && v.toISOString()) || v` (a `Date` is replaced by its ISO
string; `toISOString` never returns an empty string, but the `&&`/`||` chain
is modelled exactly). -/
def normDate : JVal → JVal
  | .date iso => if iso.isEmpty then .date iso else .str iso
  | v => v

/-- One configured connection (`conf.db.connections[i]` restricted to the
fields the claims exercise): name, dialect, optional version, optional global
bind defaults and the flat list of `(fileName, fileContent)` statement sources
in its directory.  Subdirectory recursion, sanitized-name collisions and the
`substitutes` rewriting of `SQLS` are elided (no claim depends on them). -/
structure ConnCfg where
  name : String
  dialect : String
  version : Option JNum := none
  binds : Option Binds := none
  files : List (String × String) := []

/-- Model of `conn.version || 0` as stored on `DBS`. -/
def connVersion (conn : ConnCfg) : JNum :=
  match conn.version with
  | none => .int 0
  | some v => v

/-- The prepared statement function `execSqlPublic(opts, frags)` returned by
`SQLS.prepared` for one SQL file (static mode, no cache):

* if no CRUD category was inferred from the file name and `opts.type` is
  missing/falsy, the rejection-message template dereferences the undeclared
  identifier `OPERATION_TYPES`, so the call rejects with a `ReferenceError`;
* connection-level default binds are copied in unless overridden by a
  call-supplied bind of the same name (no date conversion on this path);
* call-supplied binds are copied in with `Date` values replaced by their ISO
  string;
* the handle then evaluates `opts.type || crud` — with `opts` absent
  (`undefined`) this property access throws a `TypeError` — and executes the
  statement through `DBS.exec`. -/
def execSqlPublic (conn : ConnCfg) (dbx : Dbx) (fname : String) (content : String)
    (pending : Int) (opts : Option ExecOpts) (frags : Option (List String)) :
    Except JsErr JVal × Int :=
  let crud := crudOf fname
  if crud.isNone && !(match opts with
                      | none => false
                      | some o => truthyStr o.type) then
    (.error (.referenceError "OPERATION_TYPES is not defined"), pending)
  else
    let binds1 : Binds :=
      match conn.binds with
      | none => []
      | some cb =>
          cb.foldl (fun acc kv =>
            if (match opts with
                | none => false
                | some o =>
                    match o.binds with
                    | none => false
                    | some ob => objHas ob kv.1) then acc
            else objSet acc kv.1 kv.2) []
    match opts with
    | none =>
        (.error (.typeError "Cannot read properties of undefined (reading type)"), pending)
    | some o =>
        let binds2 :=
          match o.binds with
          | none => binds1
          | some ob => ob.foldl (fun acc kv => objSet acc kv.1 (normDate kv.2)) binds1
        let t := if truthyStr o.type then o.type else crud
        dbsExec dbx (lowerStr conn.dialect) (connVersion conn) pending content.toList
          { type := t, binds := some binds2 } frags

/- ### Lifecycle orchestration: `SQLS.init`, `operation`, `Manager.init` -/

/-- The lifecycle operations fanned out by `operation`. -/
inductive LifecycleOp where
  | initOp | commitOp | rollbackOp | closeOp

/-- One `SQLS` instance: its connection configuration and dialect driver
(`DBS.pending` starts at 0). -/
structure SqlsConn where
  conn : ConnCfg
  dbx : Dbx
  pending : Int := 0

/-- Model of `SQLS.init`: walk the connection's SQL directory building one prepared
handle per statement file (incrementing `numOfPreparedStmts` once per file),
then hand the leaf count to the driver's `init`.  The flat file list stands in
for the directory walk. -/
def sqlsInit (s : SqlsConn) : Except JsErr JVal :=
  s.dbx.init (.obj [("numOfPreparedStmts", .num (.int s.conn.files.length))])

/-- Dispatch of `sqli[funcName]()` inside `operation`. -/
def runLifecycle (s : SqlsConn) : LifecycleOp → Except JsErr JVal
  | .initOp => sqlsInit s
  | .commitOp => s.dbx.commit (generateDbsOpts s.pending)
  | .rollbackOp => s.dbx.rollback (generateDbsOpts s.pending)
  | .closeOp => s.dbx.close (generateDbsOpts s.pending)

/-- The per-connection entry of `opts.connections`. -/
structure ConnOverride where
  executeInSeries : Option JVal := none

/-- The options object of `Manager.commit/rollback` and `operation`. -/
structure OpOpts where
  connections : Option (List (String × ConnOverride)) := none
  executeInSeries : Option JVal := none

/-- The two Asynchro scheduling lanes. -/
inductive Lane where
  | series | parallel
deriving DecidableEq

/-- The `queue` closure of `operation` applied to one `SQLS` instance.  Its
override test reads `opts.connections[name]`, but no variable `name` is in
scope anywhere in the module, so whenever `opts.connections` is truthy the
access throws `ReferenceError: name is not defined`; otherwise the task is
queued on the lane selected by the batch-wide `opts.executeInSeries`. -/
def queueOne (opts : OpOpts) (sqli : SqlsConn) : Except JsErr (String × Lane × SqlsConn) :=
  match opts.connections with
  | some _ => .error (.referenceError "name is not defined")
  | none =>
      if truthyOpt opts.executeInSeries then .ok (sqli.conn.name, .series, sqli)
      else .ok (sqli.conn.name, .parallel, sqli)

/-- The queueing loop of `operation`: every connection (or only those in a
non-empty `connNames` filter) is passed to `queue`. -/
def queueAll (opts : OpOpts) (connNames : List String) :
    List SqlsConn → Except JsErr (List (String × Lane × SqlsConn))
  | [] => .ok []
  | s :: rest =>
      if connNames.length ≠ 0 && !connNames.contains s.conn.name then
        queueAll opts connNames rest
      else
        match queueOne opts s with
        | .error e => .error e
        | .ok q =>
            match queueAll opts connNames rest with
            | .error e => .error e
            | .ok qs => .ok (q :: qs)

/-- Model of `ax.run()` with `throwOnError`: run every queued task, storing each result
in the result object under the task's connection name; the first task failure
rejects the whole batch. -/
def runAllGo (op : LifecycleOp) (acc : Binds) :
    List (String × Lane × SqlsConn) → Except JsErr Binds
  | [] => .ok acc
  | (nm, _, s) :: rest =>
      match runLifecycle s op with
      | .error e => .error e
      | .ok r => runAllGo op (objSet acc nm r) rest

/-- Model of `operation(mgr, funcName, opts, connNames)`: queue the selected
connections on their lanes and run the batch, producing the map from
connection name to that connection's result. -/
def operation (sqls : List SqlsConn) (op : LifecycleOp) (opts? : Option OpOpts)
    (connNames : List String) : Except JsErr Binds :=
  let opts := opts?.getD {}
  match queueAll opts connNames sqls with
  | .error e => .error e
  | .ok queued => runAllGo op [] queued

/-- Truthiness of the stored `mgr.at.sqlsCount` (initially `undefined`). -/
def truthyCount : Option Nat → Bool
  | none => false
  | some n => n != 0

/-- Model of `Manager.init`: throw if `sqlsCount` is already truthy, run the `init`
batch across all connections, store the number of property names of the
result object as `sqlsCount`, and return that count. -/
def managerInit (sqls : List SqlsConn) (sqlsCount : Option Nat) :
    Except JsErr (Nat × Option Nat) :=
  if truthyCount sqlsCount then
    .error (.err (toString (sqlsCount.getD 0) ++ " database(s) already initialized"))
  else
    match operation sqls .initOp none [] with
    | .error e => .error e
    | .ok rslt =>
        let cnt := rslt.length
        .ok (cnt, some cnt)

/- ### Auxiliary predicates and concrete collaborators used by the theorems -/

/-- Does the character `c` occur in the text? -/
def hasCh (c : Char) (s : List Char) : Bool :=
  s.any (fun x => x == c)

/-- Does the two-character sequence `[[` occur in the text?  Every guard
marker of the template language starts with it, so a text without `[[`
contains no guard markers. -/
def hasBB : List Char → Bool
  | [] => false
  | [_] => false
  | a :: b :: t => (a == '[' && b == '[') || hasBB (b :: t)

/-- Is the value a non-empty JS array? (the only bind values that the
array-expansion pass rewrites). -/
def isNEArr : JVal → Bool
  | .arr (_ :: _) => true
  | _ => false

/-- A dialect driver that echoes its inputs: `init`/`commit`/`rollback`/`close`
return their options object and `exec` returns the bind object it was handed.
Used to observe exactly what the embedded code submits to the driver. -/
def echoDbx : Dbx where
  init := fun o => .ok o
  exec := fun c => .ok (.obj (c.binds.getD []))
  commit := fun o => .ok o
  rollback := fun o => .ok o
  close := fun o => .ok o

/-- A dialect driver whose `exec` always fails. -/
def failDbx : Dbx :=
  { echoDbx with exec := fun _ => .error (.err "boom") }

/-- A minimal connection configuration. -/
def connM : ConnCfg :=
  { name := "c1", dialect := "mysql" }

/-- A connection configuration named `connA` with one statement file. -/
def cfgA : ConnCfg :=
  { name := "connA", dialect := "mysql", files := [("a.sql", "SELECT 1")] }

/-- A connection configuration named `connB` with three statement files. -/
def cfgB : ConnCfg :=
  { name := "connB", dialect := "mysql",
    files := [("b.sql", "x"), ("c.sql", "y"), ("d.sql", "z")] }

/-- Wrap a connection configuration into an `SQLS` instance on the echo
driver. -/
def mkEchoSqls (c : ConnCfg) : SqlsConn :=
  { conn := c, dbx := echoDbx }

/-- The `SQLS` instance for `cfgA` on the echo driver. -/
def sqlsA : SqlsConn := mkEchoSqls cfgA

/-- The `SQLS` instance for `cfgB` on the echo driver. -/
def sqlsB : SqlsConn := mkEchoSqls cfgB

/-- Does the (possibly absent) bind object hold no non-empty array value?
(the values that array expansion rewrites). -/
def bindsNoNEArr : Option Binds → Bool
  | none => true
  | some l => l.all (fun kv => !isNEArr kv.2)

/-! ## Helper lemmas

First: a text that nowhere contains the two-character sequence `[[` is left
untouched by each of the three guard-replace passes, since every guard open
marker starts with `[[`. -/

theorem hasBB_cons_of {l : List Char} (a : Char) (h : hasBB l = true) :
    hasBB (a :: l) = true := by
  cases l with
  | nil => simp [hasBB] at h
  | cons b t => simp [hasBB] at h ⊢; exact Or.inr h

theorem hasBB_of_tail {a : Char} {l : List Char} (h : hasBB (a :: l) = false) :
    hasBB l = false := by
  cases l with
  | nil => rfl
  | cons b t =>
    simp [hasBB] at h ⊢
    exact h.2

theorem hasBB_append_right {t : List Char} (p : List Char) (h : hasBB t = true) :
    hasBB (p ++ t) = true := by
  induction p with
  | nil => simpa using h
  | cons a p ih => exact hasBB_cons_of a ih

theorem hasBB_of_suffix {t s : List Char} (hs : t <:+ s) (h : hasBB t = true) :
    hasBB s = true := by
  obtain ⟨p, rfl⟩ := hs
  exact hasBB_append_right p h

theorem takeLbs_suffix_aux : ∀ (n : Nat) (s : List Char), s.length ≤ n → (takeLbs s).2 <:+ s := by
  intro n
  induction n with
  | zero =>
    intro s hs
    rw [List.length_eq_zero.mp (Nat.le_zero.mp hs)]
    exact List.suffix_refl _
  | succ n ih =>
    intro s hs
    match s with
    | [] => exact List.suffix_refl _
    | [c] =>
      rw [takeLbs]
      split
      · exact List.nil_suffix
      · exact List.suffix_refl _
    | c :: c2 :: rest =>
      rw [takeLbs]
      split
      · have h1 := ih (c2 :: rest) (by simpa using Nat.lt_succ_iff.mp (by simpa using hs))
        exact h1.trans (List.suffix_cons c _)
      · split
        · have hr : rest.length ≤ n := by
            have := hs; simp [List.length_cons] at this; omega
          have h1 := ih rest hr
          exact (h1.trans (List.suffix_cons c2 _)).trans (List.suffix_cons c _)
        · exact List.suffix_refl _

theorem takeLbs_suffix (s : List Char) : (takeLbs s).2 <:+ s :=
  takeLbs_suffix_aux s.length s le_rfl

theorem chEqCI_lbrack {ci : Bool} {c : Char} (h : chEqCI ci '[' c = true) : c = '[' := by
  have hl : isAsciiLetter '[' = false := by decide
  simp [chEqCI, hl] at h
  exact h.symm

theorem stripLit_bb {ci : Bool} {l s r : List Char}
    (h : stripLit ci ('[' :: '[' :: l) s = some r) : hasBB s = true := by
  match s with
  | [] => simp [stripLit] at h
  | [c] =>
    simp only [stripLit] at h
    split at h
    · exact Option.noConfusion h
    · exact Option.noConfusion h
  | c :: c2 :: cs =>
    simp only [stripLit] at h
    split at h
    · next h1 =>
      split at h
      · next h2 =>
        have e1 := chEqCI_lbrack h1
        have e2 := chEqCI_lbrack h2
        subst e1; subst e2
        simp [hasBB]
      · simp at h
    · simp at h

theorem dashLit_bb {ci : Bool} {l s r : List Char}
    (h : dashLit ci ('[' :: '[' :: l) s = some r) : hasBB s = true := by
  unfold dashLit at h
  rcases hm1 : (match s with
      | c1 :: c2 :: t => if c1 = '-' ∧ c2 = '-' then stripLit ci ('[' :: '[' :: l) t else none
      | _ => none) with _ | r1
  · rw [hm1] at h
    simp only [Option.orElse] at h
    rcases hm2 : (match s with
        | c1 :: t => if c1 = '-' then stripLit ci ('[' :: '[' :: l) t else none
        | _ => none) with _ | r2
    · rw [hm2] at h
      simp only [Option.orElse] at h
      exact stripLit_bb h
    · -- the one-dash branch matched: s = '-' :: t with the literal right after
      match s with
      | [] => simp at hm2
      | c1 :: t =>
        simp only at hm2
        split at hm2
        · next hc =>
          subst hc
          exact hasBB_cons_of _ (stripLit_bb hm2)
        · simp at hm2
  · -- the two-dash branch matched
    match s with
    | [] => simp at hm1
    | [c] => simp at hm1
    | c1 :: c2 :: t =>
      simp only at hm1
      split at hm1
      · next hc =>
        obtain ⟨hc1, hc2⟩ := hc
        subst hc1; subst hc2
        exact hasBB_cons_of _ (hasBB_cons_of _ (stripLit_bb hm1))
      · simp at hm1

theorem tryGuardAt_none {ci : Bool} {l cl : List Char}
    {pc : List Char → Option (Bool × List Char)} {s : List Char}
    (h : hasBB s = false) : tryGuardAt ci ('[' :: '[' :: l) cl pc s = none := by
  unfold tryGuardAt
  rcases hd : dashLit ci ('[' :: '[' :: l) (takeLbs s).2 with _ | s2
  · simp [hd]
  · exfalso
    have h1 := hasBB_of_suffix (takeLbs_suffix s) (dashLit_bb hd)
    rw [h] at h1
    exact Bool.noConfusion h1

theorem guardGo_id {ci : Bool} {l cl : List Char}
    {pc : List Char → Option (Bool × List Char)} :
    ∀ (fuel : Nat) (s : List Char), hasBB s = false →
      guardGo ci ('[' :: '[' :: l) cl pc fuel s = s := by
  intro fuel
  induction fuel with
  | zero => intro s _; rfl
  | succ n ih =>
    intro s h
    have ht := @tryGuardAt_none ci l cl pc s h
    cases s with
    | nil => simp [guardGo, ht]
    | cons c t => simp [guardGo, ht, ih t (hasBB_of_tail h)]

theorem sqlDiaPass_id {d : String} {s : List Char} (h : hasBB s = false) :
    sqlDiaPass d s = s :=
  guardGo_id _ _ h

theorem sqlVerPass_id {v : JNum} {s : List Char} (h : hasBB s = false) :
    sqlVerPass v s = s :=
  guardGo_id _ _ h

theorem sqlFragPass_id {keys : Option (List String)} {s : List Char} (h : hasBB s = false) :
    sqlFragPass keys s = s :=
  guardGo_id _ _ h

theorem hasCh_append (c : Char) (a b : List Char) :
    hasCh c (a ++ b) = (hasCh c a || hasCh c b) := by
  simp [hasCh]

theorem hasBB_false_of_no_lbrack : ∀ {s : List Char}, hasCh '[' s = false → hasBB s = false := by
  intro s
  induction s with
  | nil => intro _; rfl
  | cons a t ih =>
    intro h
    have ha : (a == '[') = false := by
      simp [hasCh] at h ⊢
      exact h.1
    have ht : hasCh '[' t = false := by
      simp [hasCh] at h ⊢
      exact h.2
    cases t with
    | nil => rfl
    | cons b t2 =>
      have h2 := ih ht
      simp [hasBB, ha, h2]

/-! Second: the array-expansion pass leaves the text and the binds unchanged
when no matched token's bind value is a non-empty array (in particular when
the text has no `:` at all). -/

theorem tryToken_ne {c : Char} {t : List Char} (h : ¬ c = ':') :
    tryToken (c :: t) = none := by
  simp [tryToken, h]

theorem tryToken_some {s ls r : List Char} (h : tryToken s = some (ls, r)) :
    s = ':' :: (ls ++ r) := by
  cases s with
  | nil => exact Option.noConfusion h
  | cons c t =>
    simp only [tryToken] at h
    split at h
    · next hc =>
      split at h
      · exact Option.noConfusion h
      · injection h with h1
        injection h1 with h2 h3
        subst hc; subst h2; subst h3
        rw [List.takeWhile_append_dropWhile]
    · exact Option.noConfusion h

theorem objGet_mem {b : Binds} {k : String} {v : JVal} (h : objGet b k = some v) :
    (k, v) ∈ b := by
  induction b with
  | nil => exact Option.noConfusion h
  | cons kv rest ih =>
    obtain ⟨k0, v0⟩ := kv
    simp only [objGet] at h
    split at h
    · next he =>
      injection h with h1
      subst he; subst h1
      exact List.mem_cons_self _ _
    · exact List.mem_cons_of_mem _ (ih h)

theorem arrVals_some {b : Binds} {k : String} {vals : List JVal}
    (h : arrVals b k = some vals) : objGet b k = some (.arr vals) := by
  unfold arrVals at h
  split at h
  · next heq =>
    injection h with h1
    subst h1
    exact heq
  · exact Option.noConfusion h

theorem sqlArrayGo_id : ∀ (fuel : Nat) (b? : Option Binds) (s : List Char),
    (∀ l, b? = some l → ∀ kv ∈ l, isNEArr kv.2 = false) →
    sqlArrayGo fuel b? s = (s, b?) := by
  intro fuel
  induction fuel with
  | zero => intro b? s _; rfl
  | succ n ih =>
    intro b? s h
    cases s with
    | nil => rfl
    | cons c rest0 =>
      rcases ht : tryToken (c :: rest0) with _ | ⟨ls, rest⟩
      · simp [sqlArrayGo, ht, ih b? rest0 h]
      · have hs := tryToken_some ht
        have hcons : ':' :: ls ++ rest = c :: rest0 := by
          rw [List.cons_append, ← hs]
        cases b? with
        | none =>
          simp only [sqlArrayGo, ht, ih none rest h]
          exact Prod.ext hcons rfl
        | some b =>
          rcases hv : arrVals b (String.mk ls) with _ | vals
          · simp only [sqlArrayGo, ht, hv, ih (some b) rest h]
            exact Prod.ext hcons rfl
          · cases vals with
            | nil =>
              simp only [sqlArrayGo, ht, hv, List.isEmpty_nil, if_true,
                ih (some b) rest h]
              exact Prod.ext hcons rfl
            | cons v vs =>
              exfalso
              have hmem := objGet_mem (arrVals_some hv)
              have := h b rfl _ hmem
              simp [isNEArr] at this

/-- The identity property of one whole `frag` pass: a text without `[[` and a
bind object without non-empty array values come back unchanged. -/
theorem fragL_id {d : String} {v : JNum} {keys : Option (List String)}
    {s : List Char} {b? : Option Binds}
    (hbb : hasBB s = false)
    (harr : ∀ l, b? = some l → ∀ kv ∈ l, isNEArr kv.2 = false) :
    fragL d v s keys b? = (s, b?) := by
  unfold fragL
  split
  · rfl
  · rw [sqlArrayGo_id s.length b? s harr]
    simp only
    rw [sqlDiaPass_id hbb, sqlVerPass_id hbb, sqlFragPass_id hbb]

theorem bindsNoNEArr_spec {b? : Option Binds} (h : bindsNoNEArr b? = true) :
    ∀ l, b? = some l → ∀ kv ∈ l, isNEArr kv.2 = false := by
  intro l hl kv hkv
  subst hl
  simp only [bindsNoNEArr, List.all_eq_true] at h
  simpa using h kv hkv

theorem sqlArrayGo_no_colon : ∀ (fuel : Nat) (b? : Option Binds) (s : List Char),
    hasCh ':' s = false → sqlArrayGo fuel b? s = (s, b?) := by
  intro fuel
  induction fuel with
  | zero => intro b? s _; rfl
  | succ n ih =>
    intro b? s h
    cases s with
    | nil => rfl
    | cons c rest0 =>
      have hc : ¬ c = ':' := by
        simp [hasCh] at h
        exact h.1
      have ht : hasCh ':' rest0 = false := by
        simp [hasCh] at h ⊢
        exact h.2
      simp [sqlArrayGo, tryToken_ne hc, ih b? rest0 ht]

/-- A colon-free, bracket-free text passes through `frag` untouched with any
bind object. -/
theorem fragL_text_id {d : String} {v : JNum} {keys : Option (List String)}
    {s : List Char} {b : Binds}
    (hnc : hasCh ':' s = false) (hbb : hasBB s = false) :
    fragL d v s keys (some b) = (s, some b) := by
  unfold fragL
  split
  · rfl
  · rw [sqlArrayGo_no_colon _ _ _ hnc]
    simp only
    rw [sqlDiaPass_id hbb, sqlVerPass_id hbb, sqlFragPass_id hbb]

theorem sqlArrayGo_append : ∀ (pre : List Char), hasCh ':' pre = false →
    ∀ (fuel : Nat) (b? : Option Binds) (s : List Char),
      sqlArrayGo (pre.length + fuel) b? (pre ++ s) =
        (pre ++ (sqlArrayGo fuel b? s).1, (sqlArrayGo fuel b? s).2) := by
  intro pre
  induction pre with
  | nil => intro _ fuel b? s; simp
  | cons c p ih =>
    intro hpre fuel b? s
    have hc : ¬ c = ':' := by
      simp [hasCh] at hpre
      exact hpre.1
    have hp : hasCh ':' p = false := by
      simp [hasCh] at hpre ⊢
      exact hpre.2
    have hlen : (c :: p).length + fuel = (p.length + fuel) + 1 := by
      simp [List.length_cons]; omega
    rw [hlen, List.cons_append]
    simp [sqlArrayGo, tryToken_ne hc, ih hp fuel b? s]

/-- Scanning past the colon-free text around a token, the array-expansion pass
rewrites `:ids` bound to `[10, 20, 30]` into `:ids, :ids1, :ids2` and the
bind object into `ids -> 10, ids1 -> 20, ids2 -> 30`. -/
theorem sqlArrayGo_ids (post : List Char) (h2 : hasCh ':' post = false)
    (h5 : post.takeWhile isAsciiLetter = []) (fuel : Nat) :
    sqlArrayGo (fuel + 1) (some [("ids", .arr [.num 10, .num 20, .num 30])])
        (':' :: ('i' :: 'd' :: 's' :: post)) =
      (":ids, :ids1, :ids2".toList ++ post,
       some [("ids", .num 10), ("ids1", .num 20), ("ids2", .num 30)]) := by
  have htw : ('i' :: 'd' :: 's' :: post).takeWhile isAsciiLetter = 'i' :: 'd' :: 's' :: [] := by
    simp [List.takeWhile_cons, isAsciiLetter, h5]
  have hdw : ('i' :: 'd' :: 's' :: post).dropWhile isAsciiLetter = post := by
    have hi : isAsciiLetter 'i' = true := by decide
    have hd : isAsciiLetter 'd' = true := by decide
    have hss : isAsciiLetter 's' = true := by decide
    simp only [List.dropWhile_cons, hi, hd, hss, if_true]
    cases hp : post with
    | nil => rfl
    | cons a t =>
      have ha : isAsciiLetter a = false := by
        cases hpa : isAsciiLetter a with
        | false => rfl
        | true =>
          rw [hp, List.takeWhile_cons, hpa] at h5
          simp at h5
      simp [List.dropWhile_cons, ha]
  have htok : tryToken (':' :: ('i' :: 'd' :: 's' :: post)) =
      some ('i' :: 'd' :: 's' :: [], post) := by
    simp [tryToken, htw, hdw]
  rw [sqlArrayGo, htok]
  simp only
  rw [show arrVals [("ids", JVal.arr [.num 10, .num 20, .num 30])]
        (String.mk ('i' :: 'd' :: 's' :: [])) = some [.num 10, .num 20, .num 30] from rfl]
  simp only [List.isEmpty_cons, if_neg (by decide : ¬ (false = true))]
  rw [show expandGo ('i' :: 'd' :: 's' :: []) 0 [JVal.num 10, JVal.num 20, JVal.num 30] []
        [("ids", JVal.arr [.num 10, .num 20, .num 30])] =
      (":ids, :ids1, :ids2".toList,
       [("ids", JVal.num 10), ("ids1", JVal.num 20), ("ids2", JVal.num 30)]) from rfl]
  rw [sqlArrayGo_no_colon fuel _ post h2]

/-! Third: characterising JS object construction by repeated `objSet` with
fresh keys, for the bind-merge of `execSqlPublic` and the result object of
`operation`. -/

theorem objGet_eq_none {b : Binds} {k : String} (h : ∀ kv ∈ b, kv.1 ≠ k) :
    objGet b k = none := by
  induction b with
  | nil => rfl
  | cons kv rest ih =>
    obtain ⟨k0, v0⟩ := kv
    have h0 : k0 ≠ k := h (k0, v0) (List.mem_cons_self _ _)
    simp only [objGet, if_neg h0]
    exact ih fun kv hkv => h kv (List.mem_cons_of_mem _ hkv)

theorem objGet_isSome_of_mem {b : Binds} {k : String} {v : JVal} (h : (k, v) ∈ b) :
    (objGet b k).isSome = true := by
  induction b with
  | nil => simp at h
  | cons kv rest ih =>
    obtain ⟨k0, v0⟩ := kv
    rcases List.mem_cons.mp h with he | hm
    · injection he with h1 h2
      subst h1
      simp [objGet]
    · simp only [objGet]
      split
      · rfl
      · exact ih hm

theorem objSet_fresh {b : Binds} {k : String} {v : JVal} (h : objGet b k = none) :
    objSet b k v = b ++ [(k, v)] := by
  induction b with
  | nil => rfl
  | cons kv rest ih =>
    obtain ⟨k0, v0⟩ := kv
    simp only [objGet] at h
    split at h
    · exact Option.noConfusion h
    · next hne =>
      simp only [objSet, if_neg hne, List.cons_append]
      rw [ih h]

theorem objGet_append_left_none {b1 b2 : Binds} {k : String} (h : objGet b1 k = none) :
    objGet (b1 ++ b2) k = objGet b2 k := by
  induction b1 with
  | nil => rfl
  | cons kv rest ih =>
    obtain ⟨k0, v0⟩ := kv
    simp only [objGet] at h ⊢
    split at h
    · exact Option.noConfusion h
    · next hne =>
      rw [if_neg hne]
      exact ih h

theorem foldl_objSet_fresh (f : JVal → JVal) :
    ∀ (l : List (String × JVal)) (acc : Binds),
      (l.map Prod.fst).Nodup →
      (∀ kv ∈ l, objGet acc kv.1 = none) →
      l.foldl (fun acc kv => objSet acc kv.1 (f kv.2)) acc =
        acc ++ l.map (fun kv => (kv.1, f kv.2)) := by
  intro l
  induction l with
  | nil => intro acc _ _; simp
  | cons kv rest ih =>
    intro acc hnd hfresh
    obtain ⟨k0, v0⟩ := kv
    have hacc : objGet acc k0 = none := hfresh (k0, v0) (List.mem_cons_self _ _)
    have hnd2 : (rest.map Prod.fst).Nodup := (List.nodup_cons.mp hnd).2
    have hk0 : k0 ∉ rest.map Prod.fst := (List.nodup_cons.mp hnd).1
    simp only [List.foldl_cons]
    rw [objSet_fresh hacc]
    rw [ih (acc ++ [(k0, f v0)]) hnd2 ?fresh2]
    · simp
    case fresh2 =>
      intro kv hkv
      rw [objGet_append_left_none (hfresh kv (List.mem_cons_of_mem _ hkv))]
      have hne : kv.1 ≠ k0 := by
        intro he
        exact hk0 (he ▸ List.mem_map_of_mem Prod.fst hkv)
      simp [objGet, hne.symm]

theorem foldl_defaults (ob : Binds) :
    ∀ (cb : List (String × JVal)) (acc : Binds),
      (cb.map Prod.fst).Nodup →
      (∀ kv ∈ cb, objGet acc kv.1 = none) →
      cb.foldl (fun acc kv => if objHas ob kv.1 then acc else objSet acc kv.1 kv.2) acc =
        acc ++ cb.filter (fun kv => !objHas ob kv.1) := by
  intro cb
  induction cb with
  | nil => intro acc _ _; simp
  | cons kv rest ih =>
    intro acc hnd hfresh
    obtain ⟨k0, v0⟩ := kv
    have hacc : objGet acc k0 = none := hfresh (k0, v0) (List.mem_cons_self _ _)
    have hnd2 : (rest.map Prod.fst).Nodup := (List.nodup_cons.mp hnd).2
    have hk0 : k0 ∉ rest.map Prod.fst := (List.nodup_cons.mp hnd).1
    simp only [List.foldl_cons]
    by_cases hob : objHas ob k0 = true
    · rw [if_pos hob]
      rw [ih acc hnd2 (fun kv hkv => hfresh kv (List.mem_cons_of_mem _ hkv))]
      rw [List.filter_cons]
      simp [hob]
    · rw [if_neg hob]
      simp only [Bool.not_eq_true] at hob
      rw [objSet_fresh hacc]
      rw [ih (acc ++ [(k0, v0)]) hnd2 ?fresh2]
      · rw [List.filter_cons]
        simp [hob]
      case fresh2 =>
        intro kv hkv
        rw [objGet_append_left_none (hfresh kv (List.mem_cons_of_mem _ hkv))]
        have hne : kv.1 ≠ k0 := by
          intro he
          exact hk0 (he ▸ List.mem_map_of_mem Prod.fst hkv)
        simp [objGet, hne.symm]

/-! Fourth: the `init` batch of `operation` over echo-driven connections. -/

theorem queueAll_default (sqls : List SqlsConn) :
    queueAll {} [] sqls = .ok (sqls.map fun s => (s.conn.name, Lane.parallel, s)) := by
  induction sqls with
  | nil => rfl
  | cons s rest ih =>
    simp [queueAll, queueOne, truthyOpt, ih]

theorem runAllGo_cons_ok {op : LifecycleOp} {acc : Binds} {nm : String} {lane : Lane}
    {s : SqlsConn} {rest : List (String × Lane × SqlsConn)} {r : JVal}
    (h : runLifecycle s op = .ok r) :
    runAllGo op acc ((nm, lane, s) :: rest) = runAllGo op (objSet acc nm r) rest := by
  simp [runAllGo, h]

theorem runAllGo_init_echo : ∀ (conns : List ConnCfg) (acc : Binds),
    ((conns.map ConnCfg.name).Nodup) →
    (∀ c ∈ conns, objGet acc c.name = none) →
    runAllGo .initOp acc ((conns.map mkEchoSqls).map fun s => (s.conn.name, Lane.parallel, s)) =
      .ok (acc ++ conns.map fun c =>
        (c.name, JVal.obj [("numOfPreparedStmts", JVal.num (.int c.files.length))])) := by
  intro conns
  induction conns with
  | nil => intro acc _ _; simp [runAllGo]
  | cons c rest ih =>
    intro acc hnd hfresh
    have hacc : objGet acc c.name = none := hfresh c (List.mem_cons_self _ _)
    have hnd2 : (rest.map ConnCfg.name).Nodup := (List.nodup_cons.mp (by simpa using hnd)).2
    have hk0 : c.name ∉ rest.map ConnCfg.name := (List.nodup_cons.mp (by simpa using hnd)).1
    simp only [List.map_cons]
    rw [runAllGo_cons_ok (show runLifecycle (mkEchoSqls c) .initOp =
        .ok (.obj [("numOfPreparedStmts", JVal.num (.int c.files.length))]) from rfl)]
    rw [show (mkEchoSqls c).conn.name = c.name from rfl]
    rw [objSet_fresh hacc]
    rw [ih _ hnd2 ?fresh2]
    · simp
    case fresh2 =>
      intro c2 hc2
      rw [objGet_append_left_none (hfresh c2 (List.mem_cons_of_mem _ hc2))]
      have hne : c2.name ≠ c.name := by
        intro he
        exact hk0 (he ▸ List.mem_map_of_mem ConnCfg.name hc2)
      simp [objGet, hne.symm]

theorem operation_init_echo (conns : List ConnCfg)
    (hnd : (conns.map ConnCfg.name).Nodup) :
    operation (conns.map mkEchoSqls) .initOp none [] =
      .ok (conns.map fun c =>
        (c.name, JVal.obj [("numOfPreparedStmts", JVal.num (.int c.files.length))])) := by
  unfold operation
  simp only [Option.getD]
  rw [queueAll_default]
  simpa using runAllGo_init_echo conns [] hnd (fun c _ => rfl)

/-! ## Claim theorems -/

/-- C10: a prepared statement function invoked with no options argument at all
(`opts` is `undefined`) always fails rather than executing: when the file name
has a recognized CRUD prefix the unconditional `opts.type` dereference throws
a `TypeError`, and when it has none the missing-category guard fires (itself
rejecting with a `ReferenceError`); in neither case does the statement reach
the driver. -/
theorem claim10_opts_required (fname : String) (cb : Option Binds) (content : String)
    (frags : Option (List String)) (pending : Int) :
    execSqlPublic { name := "c1", dialect := "mysql", binds := cb } echoDbx fname content
        pending none frags =
      (.error (if crudOf fname = none then .referenceError "OPERATION_TYPES is not defined"
               else .typeError "Cannot read properties of undefined (reading type)"), pending) := by
  unfold execSqlPublic
  cases h : crudOf fname with
  | none => simp [h]
  | some c => simp [h]

/-- C4 (code bug): calling a handle built from a file with no recognized CRUD
prefix and no `opts.type` fails immediately (the statement never reaches the
driver) — but with `ReferenceError: OPERATION_TYPES is not defined`, because
the rejection-message template references the undeclared `OPERATION_TYPES`
instead of `CRUD_TYPES`; the intended descriptive error naming
CREATE, READ, UPDATE, DELETE is never built.  Supplying `opts.type = "READ"`
makes the same call proceed. -/
theorem claim4_missing_type_reference_error :
    execSqlPublic connM echoDbx "somequery.sql" "SELECT 1" 0 (some {}) none =
      (.error (.referenceError "OPERATION_TYPES is not defined"), 0) ∧
    execSqlPublic connM echoDbx "somequery.sql" "SELECT 1" 0
        (some { type := some "READ" }) none = (.ok (.obj []), 0) ∧
    crudOf "somequery.sql" = none :=
  ⟨rfl, rfl, rfl⟩

/-- C2 (code bug): a public statement call with `returnErrors: true` still
re-raises a driver failure, because `genExecSqlFromFileFunction` builds the
inner options as `{ type, binds }` only and the `returnErrors` flag never
reaches `DBS.exec`; the second conjunct shows `DBS.exec` itself would return
the error as a value if the flag were present on its options. -/
theorem claim2_returnErrors_dropped :
    execSqlPublic connM failDbx "read.q.sql" "SELECT 1" 0
        (some { returnErrors := some (.bool true) }) none = (.error (.err "boom"), 0) ∧
    (dbsExec failDbx "mysql" 0 0 "SELECT 1".toList
        { type := some "READ", binds := some [], returnErrors := some (.bool true) }
        none).1 = .ok (.exn "boom") :=
  ⟨rfl, rfl⟩

/-- C3 (code bug): a lifecycle batch whose options carry a per-connection
`connections` entry always rejects with `ReferenceError: name is not defined`
(the `queue` closure reads `opts.connections[name]` but no variable `name` is
in scope), so the documented per-connection `executeInSeries` override can
never take effect; the batch-wide `executeInSeries` default (second conjunct)
works and produces the per-connection result map. -/
theorem claim3_override_reference_error :
    operation [sqlsA] .commitOp
        (some { connections := some [("connA", { executeInSeries := some (.bool true) })] })
        [] = .error (.referenceError "name is not defined") ∧
    operation [sqlsA] .commitOp (some { executeInSeries := some (.bool true) }) [] =
      .ok [("connA", generateDbsOpts 0)] :=
  ⟨rfl, rfl⟩

/-- C5 (counterexample): a version guard whose literal is non-numeric is NOT
dropped from the output — the open marker fails to match the version-guard
pattern (which requires a digit literal), so the whole span, inner content
included, is left verbatim. -/
theorem claim5_counterexample :
    frag "mysql" 2 "[[version >= abc]]X[[version]]" none none =
      ("[[version >= abc]]X[[version]]", none) ∧
    ("[[version >= abc]]X[[version]]" : String) ≠ "" :=
  ⟨rfl, by decide⟩

/-- C5 (amended): with comparator `>=` and literal `2` the guarded content is
kept at connection version 2 and dropped at version 1.9; a guard with a
non-numeric literal fails to match and its span is left verbatim in the
output (the content is retained together with the markers, not dropped). -/
theorem claim5_version_guard :
    frag "mysql" 2 "[[version >= 2]]KEPT[[version]]" none none = ("KEPT", none) ∧
    frag "mysql" { n := 19, d := 10 } "[[version >= 2]]KEPT[[version]]" none none = ("", none) ∧
    frag "mysql" 2 "[[version >= abc]]X[[version]]" none none =
      ("[[version >= abc]]X[[version]]", none) :=
  ⟨rfl, rfl, rfl⟩

/-- C6 (counterexample): `frag` is not idempotent — collapsing a guard span
can splice the surrounding text into a brand-new guard marker, which the next
pass then resolves: on this input the first pass produces
`[[! mysql ]]HI[[!]]`, and a second pass collapses it further to `HI`. -/
theorem claim6_counterexample :
    frag "mysql" 0 "[[[[! a ]][[!]]! mysql ]]HI[[!]]" none none =
      ("[[! mysql ]]HI[[!]]", none) ∧
    frag "mysql" 0 "[[! mysql ]]HI[[!]]" none none = ("HI", none) ∧
    ("HI" : String) ≠ "[[! mysql ]]HI[[!]]" :=
  ⟨rfl, rfl, by decide⟩

/-- C9 (counterexample): on marker-free text the resolver is NOT always the
identity — the array-expansion pass still rewrites `:ids` and mutates the
bind set whenever a matched token is bound to a non-empty collection. -/
theorem claim9_counterexample :
    fragL "mysql" 0 (":ids".toList) none (some [("ids", .arr [.num 1, .num 2])]) =
      (":ids, :ids1".toList, some [("ids", .num 1), ("ids1", .num 2)]) ∧
    ":ids, :ids1".toList ≠ ":ids".toList :=
  ⟨rfl, by decide⟩

/-- C9 (amended): on text containing no guard markers (no `[[`) and with a
bind set in which no value is a non-empty collection, a full `frag` pass
returns the text character for character and the bind set unchanged. -/
theorem claim9_identity (d : String) (v : JNum) (keys : Option (List String))
    (s : List Char) (b : Option Binds)
    (hbb : hasBB s = false) (harr : bindsNoNEArr b = true) :
    fragL d v s keys b = (s, b) :=
  fragL_id hbb (bindsNoNEArr_spec harr)

/-- C9 (witness). -/
theorem claim9_witness :
    fragL "mysql" 0 ("SELECT x FROM t WHERE a = :n".toList) none
        (some [("n", .num 1)]) =
      ("SELECT x FROM t WHERE a = :n".toList, some [("n", .num 1)]) :=
  claim9_identity "mysql" 0 none _ _ (by decide) (by decide)

/-- C6 (amended): re-running `frag` on the output of a full pass yields the
same text and bind set, provided that output contains no guard markers
(no `[[` was spliced together) and the mutated bind set holds no non-empty
collection values. -/
theorem claim6_idempotent (d : String) (v : JNum) (keys : Option (List String))
    (t0 : List Char) (b0 : Option Binds)
    (hbb : hasBB (fragL d v t0 keys b0).1 = false)
    (harr : bindsNoNEArr (fragL d v t0 keys b0).2 = true) :
    fragL d v (fragL d v t0 keys b0).1 keys (fragL d v t0 keys b0).2 =
      fragL d v t0 keys b0 := by
  rw [fragL_id hbb (bindsNoNEArr_spec harr)]

/-- C6 (witness). -/
theorem claim6_witness :
    fragL "mysql" 0
        (fragL "mysql" 0 ("[[! pg ]]X[[!]] :ids".toList) none
          (some [("ids", .arr [.num 5, .num 6])])).1 none
        (fragL "mysql" 0 ("[[! pg ]]X[[!]] :ids".toList) none
          (some [("ids", .arr [.num 5, .num 6])])).2 =
      fragL "mysql" 0 ("[[! pg ]]X[[!]] :ids".toList) none
        (some [("ids", .arr [.num 5, .num 6])]) :=
  claim6_idempotent "mysql" 0 none _ _ (by decide) (by decide)

/-- C7: in any marker-free, token-free context, the resolver rewrites the
token `:ids`, bound to the collection `[10, 20, 30]`, into the sibling list
`:ids, :ids1, :ids2` (the first sibling reuses the base name) and afterwards
the bind set maps `ids` to 10, `ids1` to 20 and `ids2` to 30. -/
theorem claim7_array_expansion (d : String) (v : JNum) (keys : Option (List String))
    (pre post : List Char)
    (h1 : hasCh ':' pre = false) (h2 : hasCh ':' post = false)
    (h3 : hasCh '[' pre = false) (h4 : hasCh '[' post = false)
    (h5 : post.takeWhile isAsciiLetter = []) :
    fragL d v (pre ++ ":ids".toList ++ post) keys
        (some [("ids", .arr [.num 10, .num 20, .num 30])]) =
      (pre ++ ":ids, :ids1, :ids2".toList ++ post,
       some [("ids", .num 10), ("ids1", .num 20), ("ids2", .num 30)]) := by
  have hassoc : pre ++ ":ids".toList ++ post = pre ++ (':' :: ('i' :: 'd' :: 's' :: post)) := by
    rw [List.append_assoc]
    rfl
  rw [hassoc]
  have hmid : hasCh '[' (":ids, :ids1, :ids2".toList) = false := by decide
  have hbb : hasBB (pre ++ (":ids, :ids1, :ids2".toList ++ post)) = false := by
    apply hasBB_false_of_no_lbrack
    rw [hasCh_append, hasCh_append, h3, h4, hmid]
    rfl
  have hlen : (pre ++ (':' :: ('i' :: 'd' :: 's' :: post))).length =
      pre.length + ((post.length + 3) + 1) := by
    simp [List.length_append]
  unfold fragL
  rw [if_neg ?nonempty]
  case nonempty =>
    cases pre <;> simp [List.isEmpty]
  rw [hlen, sqlArrayGo_append pre h1 ((post.length + 3) + 1) _ _,
    sqlArrayGo_ids post h2 h5 (post.length + 3)]
  simp only
  rw [sqlDiaPass_id hbb, sqlVerPass_id hbb, sqlFragPass_id hbb]
  rw [← List.append_assoc]

/-- C7 (witness). -/
theorem claim7_witness :
    fragL "mysql" 0 ("SELECT * FROM t WHERE id IN (".toList ++ ":ids".toList ++ ")".toList)
        none (some [("ids", .arr [.num 10, .num 20, .num 30])]) =
      ("SELECT * FROM t WHERE id IN (".toList ++ ":ids, :ids1, :ids2".toList ++ ")".toList,
       some [("ids", .num 10), ("ids1", .num 20), ("ids2", .num 30)]) :=
  claim7_array_expansion "mysql" 0 none _ _ (by decide) (by decide) (by decide)
    (by decide) (by decide)

/-- C8 (counterexample): a date-valued bind coming from the connection
defaults is NOT normalised to its ISO string — the echo driver receives the
raw `Date` value (`JVal.date`), not the textual form (`JVal.str`). -/
theorem claim8_counterexample :
    (execSqlPublic { connM with binds := some [("ts", .date "2020-05-05T00:00:00.000Z")] }
        echoDbx "read.q.sql" "SELECT 1" 0 (some { binds := some [] }) none).1 =
      .ok (.obj [("ts", .date "2020-05-05T00:00:00.000Z")]) ∧
    JVal.date "2020-05-05T00:00:00.000Z" ≠ JVal.str "2020-05-05T00:00:00.000Z" :=
  ⟨rfl, fun h => JVal.noConfusion h⟩

/-- C8 (amended): the submitted bind set is the connection's defaults merged
first with the call-supplied binds overriding them key by key, and date
normalisation to the ISO string (`normDate`) is applied exactly to the
call-supplied bind values — connection-default values pass through
unconverted. -/
theorem claim8_bind_merge (cb ob : Binds)
    (hcb : (cb.map Prod.fst).Nodup) (hob : (ob.map Prod.fst).Nodup) :
    (execSqlPublic { name := "c1", dialect := "mysql", binds := some cb } echoDbx
        "read.q.sql" "SELECT 1" 0 (some { binds := some ob }) none).1 =
      .ok (.obj (cb.filter (fun kv => !objHas ob kv.1) ++
                 ob.map (fun kv => (kv.1, normDate kv.2)))) := by
  have hfilter := foldl_defaults ob cb [] hcb (fun kv _ => rfl)
  have hfresh : ∀ kv ∈ ob, objGet (cb.filter (fun kv => !objHas ob kv.1)) kv.1 = none := by
    intro kv hkv
    apply objGet_eq_none
    intro kv2 hkv2
    have h2 := (List.mem_filter.mp hkv2).2
    intro he
    rw [he] at h2
    have h3 : objHas ob kv.1 = true := by
      obtain ⟨k, v⟩ := kv
      exact objGet_isSome_of_mem hkv
    rw [h3] at h2
    exact Bool.noConfusion h2
  have hmap := foldl_objSet_fresh normDate ob (cb.filter (fun kv => !objHas ob kv.1)) hob hfresh
  have hred : (execSqlPublic { name := "c1", dialect := "mysql", binds := some cb } echoDbx
        "read.q.sql" "SELECT 1" 0 (some { binds := some ob }) none) =
      dbsExec echoDbx (lowerStr "mysql") (.int 0) 0 ("SELECT 1".toList)
        { type := crudOf "read.q.sql",
          binds := some (ob.foldl (fun acc kv => objSet acc kv.1 (normDate kv.2))
            (cb.foldl (fun acc kv =>
              if objHas ob kv.1 then acc else objSet acc kv.1 kv.2) [])) }
        none := rfl
  rw [hred, hfilter, List.nil_append, hmap]
  unfold dbsExec
  rw [fragL_text_id (by decide) (by decide)]
  rfl

/-- C8 (witness). -/
theorem claim8_witness :
    (execSqlPublic { name := "c1", dialect := "mysql", binds := some [("a", JVal.num 1), ("b", JVal.num 2)] }
        echoDbx "read.q.sql" "SELECT 1" 0
        (some { binds := some [("b", JVal.num 9), ("d", JVal.date "D")] }) none).1 =
      .ok (.obj ([("a", JVal.num 1), ("b", JVal.num 2)].filter
            (fun kv => !objHas [("b", JVal.num 9), ("d", JVal.date "D")] kv.1) ++
          [("b", JVal.num 9), ("d", JVal.date "D")].map
            (fun kv => (kv.1, normDate kv.2)))) :=
  claim8_bind_merge _ _ (by decide) (by decide)

/-- C1 (counterexample): on two connections with one and three statement
files, `Manager.init` does not return the claimed map `{connA: 1, connB: 3}`
— it returns the number of connections (2) and stores 2, not the handle sum
4, as its count; the `operation` result map's per-connection values are the
driver's `init` results (here the echoed options object), not bare leaf
counts. -/
theorem claim1_counterexample :
    managerInit [sqlsA, sqlsB] none = .ok (2, some 2) ∧
    operation [sqlsA, sqlsB] .initOp none [] =
      .ok [("connA", .obj [("numOfPreparedStmts", .num 1)]),
           ("connB", .obj [("numOfPreparedStmts", .num 3)])] ∧
    (2 : Nat) ≠ 4 ∧
    JVal.obj [("numOfPreparedStmts", JVal.num 1)] ≠ JVal.num 1 :=
  ⟨rfl, rfl, by decide, fun h => JVal.noConfusion h⟩

/-- C1 (amended): the `init` batch produces a result map keyed by connection
name whose values are the driver's `init` results (the driver receives the
per-connection leaf count in its options); `Manager.init` returns the number
of connections processed and stores that number — not the sum of leaf counts
— and a second call fails with the already-initialized error whenever at
least one connection was processed. -/
theorem claim1_init_count (conns : List ConnCfg)
    (hnd : (conns.map ConnCfg.name).Nodup) (hne : conns ≠ []) :
    operation (conns.map mkEchoSqls) .initOp none [] =
      .ok (conns.map fun c =>
        (c.name, JVal.obj [("numOfPreparedStmts", JVal.num (.int c.files.length))])) ∧
    managerInit (conns.map mkEchoSqls) none = .ok (conns.length, some conns.length) ∧
    managerInit (conns.map mkEchoSqls) (some conns.length) =
      .error (.err (toString conns.length ++ " database(s) already initialized")) := by
  refine ⟨operation_init_echo conns hnd, ?_, ?_⟩
  · unfold managerInit
    rw [if_neg (by simp [truthyCount])]
    rw [operation_init_echo conns hnd]
    simp
  · unfold managerInit
    rw [if_pos ?already]
    · simp
    case already =>
      simp [truthyCount]
      intro h
      exact hne h

/-- C1 (witness). -/
theorem claim1_witness :
    (operation ([cfgA, cfgB].map mkEchoSqls) .initOp none [] =
      .ok ([cfgA, cfgB].map fun c =>
        (c.name, JVal.obj [("numOfPreparedStmts", JVal.num (.int c.files.length))]))) ∧
    managerInit ([cfgA, cfgB].map mkEchoSqls) none = .ok (2, some 2) ∧
    managerInit ([cfgA, cfgB].map mkEchoSqls) (some 2) =
      .error (.err ("2 database(s) already initialized")) :=
  claim1_init_count [cfgA, cfgB] (by decide) (by simp)

end Sequelify
